import Mathlib

/-!
Shallow embedding of the `Yufeireal/concurrency` matrix-multiplication
library (Rust sources `src/vector.rs`, `src/matrix.rs`, `src/metrics/amap.rs`).

The Rust program multiplies two dense matrices by building one dot-product
task per output cell, routing tasks to a pool of 4 worker threads, and
collecting `MsgOutput {idx, value}` results into a preallocated buffer via
`data[output.idx] = output.value`.  Each task's value depends only on the two
immutable vectors it carries, and each cell of the output buffer is written
from exactly the one output carrying its index, so the observable result is
the deterministic function embedded below: tasks are listed in dispatch order,
their dot products computed, and the outputs folded into the buffer.  If a
worker's `dot_product` fails, the worker thread exits via `?`, dropping the
oneshot senders of every remaining task in its queue; the dispatcher, which
polls receivers in dispatch order, then fails at the first unresolved
receiver, i.e. at the first failing task in dispatch order — exactly the
short-circuit behaviour of `mapM` over `Except`.

`T::default()` is modelled as `0`, matching the additive identity reading of
the spec; `+=`, `+`, `*` become the `Add`/`Mul` operations.
-/

namespace Concurrency

/-- Error of `vector.rs`: `anyhow!("Vector length mismatch")`. -/
inductive VectorError where
  | VectorLengthMismatch
deriving Repr, DecidableEq

/-- Rust source: `pub struct Vector<T> { data: Vec<T> }` (vector.rs). -/
structure Vector (T : Type) where
  data : List T
deriving Repr, DecidableEq

/-- Constructor `Vector::new` (vector.rs lines 35-38). -/
def Vector.new {T : Type} (data : List T) : Vector T := ⟨data⟩

/-- Function `dot_product` (vector.rs lines 11-25): fail if the lengths differ, else
`sum = T::default(); for i in 0..a.len() { sum += a[i] * b[i] }`. -/
def dot_product {T : Type} [Zero T] [Add T] [Mul T] (a b : Vector T) :
    Except VectorError T :=
  if a.data.length ≠ b.data.length then
    .error .VectorLengthMismatch
  else
    .ok ((List.range a.data.length).foldl
      (fun sum i => sum + a.data.getD i 0 * b.data.getD i 0) 0)

/-- Rust source: `pub struct Matrix<T> { data: Vec<T>, row: usize, col: usize }` (matrix.rs). -/
structure Matrix (T : Type) where
  data : List T
  row : Nat
  col : Nat
deriving Repr, DecidableEq

/-- Constant `const NUM_THREADS: usize = 4;` (matrix.rs line 10). -/
def NUM_THREADS : Nat := 4

/-- Constructor `Matrix::new` (matrix.rs lines 95-101): stores the buffer and the declared
dimensions unconditionally — there is no length validation. -/
def Matrix.new {T : Type} (data : List T) (row col : Nat) : Matrix T :=
  ⟨data, row, col⟩

/-- Rust source: `pub struct MsgInput<T> { idx: usize, row: Vector<T>, col: Vector<T> }`. -/
structure MsgInput (T : Type) where
  idx : Nat
  row : Vector T
  col : Vector T
deriving Repr, DecidableEq

/-- Rust source: `pub struct MsgOutput<T> { idx: usize, value: T }`. -/
structure MsgOutput (T : Type) where
  idx : Nat
  value : T
deriving Repr, DecidableEq

/-- Errors observable from `multiply` (matrix.rs): the explicit
`anyhow!("Matrix dimentions mismatch")` early return, and the error of
`rx.blocking_recv()?` when a worker died before resolving a oneshot handle. -/
inductive MatrixError where
  | DimensionMismatch
  | CompletionLost
deriving Repr, DecidableEq

/-- Iterator adapter `iter().step_by(s)`: the first element, then every `s`-th element after it.
The source only invokes it with `s = b.col ≥ 1` (`j ∈ 0..b.col`). -/
def stepBy {T : Type} : List T → Nat → List T
  | [], _ => []
  | x :: xs, s => x :: stepBy (xs.drop (s - 1)) s
termination_by l _ => l.length
decreasing_by
  simp only [List.length_drop, List.length_cons]
  omega

/-- The row vector of task (i,j): `Vector::new(&a.data[i * a.col..(i+1) * a.col])`
(matrix.rs line 65); the slice has length `(i+1)*a.col - i*a.col = a.col`. -/
def rowVector {T : Type} (a : Matrix T) (i : Nat) : Vector T :=
  Vector.new ((a.data.drop (i * a.col)).take a.col)

/-- The column vector of task (i,j):
`b.data[j..].iter().step_by(b.col).copied().collect()` (matrix.rs line 66). -/
def colVector {T : Type} (b : Matrix T) (j : Nat) : Vector T :=
  Vector.new (stepBy (b.data.drop j) b.col)

/-- The tasks of one `multiply` call in dispatch order (matrix.rs lines 63-84):
`for i in 0..a.row { for j in 0..b.col { MsgInput { idx: i*b.col+j, row, col } } }`. -/
def buildTasks {T : Type} (a b : Matrix T) : List (MsgInput T) :=
  (List.range a.row).flatMap (fun i =>
    (List.range b.col).map (fun j =>
      ⟨i * b.col + j, rowVector a i, colVector b j⟩))

/-- Observable trace of one `multiply` call: its result, how many worker
threads were spawned, and which tasks were built. -/
structure MultiplyTrace (T : Type) where
  result : Except MatrixError (Matrix T)
  workersSpawned : Nat
  tasks : List (MsgInput T)
deriving Repr

/-- Function `multiply` (matrix.rs lines 35-90), with its observable trace.  The
dimension check is the first action; on mismatch nothing is spawned or built.
Otherwise `NUM_THREADS` workers are spawned, one task per output cell is
built and dispatched, every task's dot product is computed, and the outputs
are collected into `vec![T::default(); a.row * b.col]` by
`data[output.idx] = output.value`.  A failing dot product kills its worker,
surfacing as the receive error of the first failing task in dispatch order
(the `mapM` short circuit). -/
def multiplyTraced {T : Type} [Zero T] [Add T] [Mul T] (a b : Matrix T) :
    MultiplyTrace T :=
  if a.col ≠ b.row then
    ⟨.error .DimensionMismatch, 0, []⟩
  else
    let tasks := buildTasks a b
    let init : List T := List.replicate (a.row * b.col) 0
    match tasks.mapM (fun t =>
        (dot_product t.row t.col).map (fun v => MsgOutput.mk t.idx v)) with
    | .error _ => ⟨.error .CompletionLost, NUM_THREADS, tasks⟩
    | .ok outs =>
        ⟨.ok ⟨outs.foldl (fun d o => d.set o.idx o.value) init, a.row, b.col⟩,
         NUM_THREADS, tasks⟩

/-- Function `multiply` (matrix.rs lines 35-90): the returned `Result`. -/
def multiply {T : Type} [Zero T] [Add T] [Mul T] (a b : Matrix T) :
    Except MatrixError (Matrix T) :=
  (multiplyTraced a b).result

/-- Rendering `impl fmt::Display for Matrix` (matrix.rs lines 104-123): write the opening brace, then
for each row each element followed by `" "` unless it is the last of its row,
each row followed by `", "` unless it is the last row, then `}`. -/
def Matrix.fmt {T : Type} [Inhabited T] (f : T → String) (m : Matrix T) :
    String :=
  let body := (List.range m.row).foldl (fun acc i =>
    let acc := (List.range m.col).foldl (fun acc j =>
      let acc := acc ++ f (m.data.getD (i * m.col + j) default)
      if j ≠ m.col - 1 then acc ++ " " else acc) acc
    if i ≠ m.row - 1 then acc ++ ", " else acc) ""
  "\x7b" ++ body ++ "\x7d"

/-- The matrix buffer has the length its dimensions declare. -/
def wellFormed {T : Type} (m : Matrix T) : Prop :=
  m.data.length = m.row * m.col

instance {T : Type} (m : Matrix T) : Decidable (wellFormed m) := by
  unfold wellFormed; infer_instance

/-- Error of `metrics/amap.rs`: `anyhow!("key {} not found", key)`. -/
inductive MetricsError where
  | KeyNotFound
deriving Repr, DecidableEq

/-- Rust source: `pub struct AmapMetrics { data: Arc<HashMap<&str, AtomicI64>> }`
(amap.rs), modelled as an association list with distinct keys. -/
structure AmapMetrics where
  data : List (String × Int)
deriving Repr, DecidableEq

/-- Constructor `AmapMetrics::new` (amap.rs lines 18-26): one zero-initialised counter per
name; collecting duplicate names into the `HashMap` leaves a single entry, so
the names are deduplicated. -/
def AmapMetrics.new (metrics_names : List String) : AmapMetrics :=
  ⟨metrics_names.dedup.map (fun name => (name, 0))⟩

/-- Two's-complement `i64` value of an unbounded integer: reduce into
[-2^63, 2^63), with `9223372036854775808 = 2^63` and
`18446744073709551616 = 2^64`. -/
def i64wrap (z : Int) : Int :=
  (z + 9223372036854775808) % 18446744073709551616 - 9223372036854775808

/-- Method `AmapMetrics::inc` (amap.rs lines 28-36): look the key up, fail with
the key-not-found error if absent, otherwise `fetch_add(1, Ordering::Relaxed)`
on that counter — an `AtomicI64` addition whose documented semantics wrap on
overflow (`i64::MAX` steps to `i64::MIN`), hence the wrapped increment
`i64wrap (v + 1)`.  Returned alongside the post-state of the counters. -/
def AmapMetrics.inc (m : AmapMetrics) (key : String) :
    Except MetricsError Unit × AmapMetrics :=
  match m.data.lookup key with
  | none => (.error .KeyNotFound, m)
  | some _ =>
      (.ok (), ⟨m.data.map (fun p =>
        if p.1 = key then (p.1, i64wrap (p.2 + 1)) else p)⟩)

/-- The counter state after n successive `inc` calls on the same key; used to
state which counter values a run of the program reaches. -/
def incN (m : AmapMetrics) (key : String) : Nat → AmapMetrics
  | 0 => m
  | n + 1 => ((incN m key n).inc key).2

/-! ### Spec-side reference definitions (for refinement claims) -/

/-- Modelled from the spec: `ConstructionError` — buffer length does not match
the declared dimensions. -/
inductive ConstructionError where
  | BufferLengthMismatch
deriving Repr, DecidableEq

/-- Modelled from the spec (§6): `newMatrix(buffer, rows, cols)` fails with
`ConstructionError` if `buffer.length != rows*cols`, and succeeds otherwise. -/
def newMatrixSpec {T : Type} (data : List T) (row col : Nat) :
    Except ConstructionError (Matrix T) :=
  if data.length ≠ row * col then .error .BufferLengthMismatch
  else .ok ⟨data, row, col⟩

/-- Modelled from the spec (§8 identity law): the n×n identity matrix of the
element type, row-major. -/
def identityMatrix (T : Type) [Zero T] [One T] (n : Nat) : Matrix T :=
  ⟨(List.range (n * n)).map (fun k => if k / n = k % n then 1 else 0), n, n⟩

/-- Modelled from the spec (§8 correctness): entry (i,j) of the naive
reference product, `Σ_l A[i][l]*B[l][j]` in row-major offsets. -/
def entrySum {T : Type} [AddCommMonoid T] [Mul T] (a b : Matrix T)
    (i j : Nat) : T :=
  ∑ l ∈ Finset.range a.col,
    a.data.getD (i * a.col + l) 0 * b.data.getD (l * b.col + j) 0

/-- Modelled from the spec (§8 correctness): the naive sequential reference
multiplication, entry (i,j) = `Σ_l A[i][l]*B[l][j]`, row-major. -/
def referenceMultiply {T : Type} [AddCommMonoid T] [Mul T] (a b : Matrix T) :
    Matrix T :=
  ⟨(List.range (a.row * b.col)).map (fun k =>
      entrySum a b (k / b.col) (k % b.col)),
   a.row, b.col⟩

/-- Modelled from the spec (§4.4 rendering): items joined by a separator, with
no separator after the final item. -/
def joinSep (sep : String) : List String → String
  | [] => ""
  | [x] => x
  | x :: y :: xs => x ++ sep ++ joinSep sep (y :: xs)

/-- Modelled from the spec (§4.4 rendering): `{`, rows separated by `", "`,
elements within a row separated by a single space, `}`. -/
def specRender {T : Type} [Inhabited T] (f : T → String) (m : Matrix T) :
    String :=
  "\x7b" ++
    joinSep ", " ((List.range m.row).map (fun i =>
      joinSep " " ((List.range m.col).map (fun j =>
        f (m.data.getD (i * m.col + j) default))))) ++ "\x7d"

/-! ### Helper lemmas -/

/-- The accumulation loop of `dot_product` computes a `Finset` sum. -/
theorem foldl_range_add {T : Type} [AddCommMonoid T] (f : Nat → T) (n : Nat) :
    ∀ acc : T, (List.range n).foldl (fun sum i => sum + f i) acc =
      acc + ∑ i ∈ Finset.range n, f i := by
  induction n with
  | zero => intro acc; simp
  | succ n ih =>
      intro acc
      rw [List.range_succ, List.foldl_append, ih, Finset.sum_range_succ,
        List.foldl_cons, List.foldl_nil, add_assoc]

/-- Lemma: `dot_product` on equal-length vectors succeeds with the sum of
elementwise products. -/
theorem dot_product_ok {T : Type} [AddCommMonoid T] [Mul T] (a b : Vector T)
    (h : a.data.length = b.data.length) :
    dot_product a b = .ok (∑ i ∈ Finset.range a.data.length,
      a.data.getD i 0 * b.data.getD i 0) := by
  unfold dot_product
  rw [if_neg (by omega), foldl_range_add, zero_add]

/-- Lemma: `stepBy` selects the elements at the multiples of the step. -/
theorem stepBy_getElem? {T : Type} (s : Nat) (hs : 1 ≤ s) :
    ∀ (k : Nat) (l : List T), (stepBy l s)[k]? = l[k * s]? := by
  intro k
  induction k with
  | zero =>
      intro l
      cases l with
      | nil => simp [stepBy]
      | cons x xs => simp [stepBy]
  | succ k ih =>
      intro l
      cases l with
      | nil => simp [stepBy]
      | cons x xs =>
          have hidx : (k + 1) * s = (s - 1 + k * s) + 1 := by
            have : (k + 1) * s = k * s + s := by ring
            omega
          rw [hidx]
          simp only [stepBy, List.getElem?_cons_succ]
          rw [ih (xs.drop (s - 1)), List.getElem?_drop]

/-- Length of `stepBy`: one element per started stride. -/
theorem stepBy_length {T : Type} (l : List T) (s : Nat) :
    1 ≤ s → (stepBy l s).length = (l.length + (s - 1)) / s := by
  induction l, s using stepBy.induct with
  | case1 s =>
      intro hs
      simp only [stepBy, List.length_nil, Nat.zero_add]
      rw [Nat.div_eq_of_lt (by omega)]
  | case2 x xs s ih =>
      intro hs
      simp only [stepBy, List.length_cons]
      rw [ih hs]
      simp only [List.length_drop]
      have hr : xs.length + 1 + (s - 1) = xs.length + s := by omega
      rw [hr, Nat.add_div_right _ (by omega)]
      rcases Nat.le_total (s - 1) xs.length with hc | hc
      · rw [Nat.sub_add_cancel hc]
      · have h0 : xs.length - (s - 1) = 0 := by omega
        rw [h0, Nat.zero_add, Nat.div_eq_of_lt (by omega : s - 1 < s),
          Nat.div_eq_of_lt (by omega : xs.length < s)]

/-- Within bounds, the row vector of task (i,j) reads row i of `a`. -/
theorem rowVector_length {T : Type} (a : Matrix T) (i : Nat)
    (ha : wellFormed a) (hi : i < a.row) :
    (rowVector a i).data.length = a.col := by
  have hmul : (i + 1) * a.col ≤ a.row * a.col :=
    Nat.mul_le_mul_right _ (by omega)
  have hmul' : (i + 1) * a.col = i * a.col + a.col := by ring
  simp only [rowVector, Vector.new, List.length_take, List.length_drop]
  unfold wellFormed at ha
  omega

theorem rowVector_getElem? {T : Type} (a : Matrix T) (i k : Nat)
    (hk : k < a.col) :
    (rowVector a i).data[k]? = a.data[i * a.col + k]? := by
  simp only [rowVector, Vector.new, List.getElem?_take, if_pos hk,
    List.getElem?_drop]

/-- Within bounds, the column vector of task (i,j) gathers column j of `b`. -/
theorem colVector_length {T : Type} (b : Matrix T) (j : Nat)
    (hb : wellFormed b) (hj : j < b.col) :
    (colVector b j).data.length = b.row := by
  simp only [colVector, Vector.new]
  rw [stepBy_length _ _ (by omega), List.length_drop]
  unfold wellFormed at hb
  rw [hb]
  rcases Nat.eq_zero_or_pos b.row with hr | hr
  · rw [hr]
    simp only [Nat.zero_mul, Nat.zero_sub, Nat.zero_add]
    exact Nat.div_eq_of_lt (by omega)
  · have hc : b.col ≤ b.row * b.col := Nat.le_mul_of_pos_left _ hr
    have harg : b.row * b.col - j + (b.col - 1) =
        b.col * (b.row - 1) + (b.col - 1 - j + b.col) := by
      have hexp : b.col * (b.row - 1) = b.row * b.col - b.col := by
        rw [Nat.mul_comm, Nat.sub_one_mul]
      omega
    rw [harg, Nat.mul_add_div (by omega)]
    have hsmall : b.col - 1 - j + b.col < 2 * b.col := by omega
    have hbig : b.col ≤ b.col - 1 - j + b.col := by omega
    have hdiv : (b.col - 1 - j + b.col) / b.col = 1 := by
      rw [Nat.div_eq_sub_div (by omega) hbig,
        Nat.div_eq_of_lt (by omega)]
    rw [hdiv]
    omega

theorem colVector_getElem? {T : Type} (b : Matrix T) (j k : Nat)
    (hj : j < b.col) :
    (colVector b j).data[k]? = b.data[k * b.col + j]? := by
  simp only [colVector, Vector.new]
  rw [stepBy_getElem? _ (by omega), List.getElem?_drop,
    Nat.add_comm j (k * b.col)]

/-- Collecting outputs by `data[o.idx] = o.value` preserves the length. -/
theorem collect_length {T : Type} (outs : List (MsgOutput T)) :
    ∀ init : List T,
      (outs.foldl (fun d o => d.set o.idx o.value) init).length =
        init.length := by
  induction outs with
  | nil => intro init; rfl
  | cons o outs ih =>
      intro init
      rw [List.foldl_cons, ih, List.length_set]

/-- A cell no remaining output addresses is left untouched by collection. -/
theorem collect_getElem?_ne {T : Type} (outs : List (MsgOutput T)) (k : Nat) :
    ∀ init : List T, (∀ o ∈ outs, o.idx ≠ k) →
      (outs.foldl (fun d o => d.set o.idx o.value) init)[k]? = init[k]? := by
  induction outs with
  | nil => intro init _; rfl
  | cons o outs ih =>
      intro init h
      rw [List.foldl_cons, ih _ (fun o ho => h o (List.mem_cons_of_mem _ ho)),
        List.getElem?_set_ne (h o (List.mem_cons_self _ _))]

/-- A cell addressed by one output, and by no later output, ends up holding
that output's value. -/
theorem collect_getElem?_split {T : Type} (pre post : List (MsgOutput T))
    (o : MsgOutput T) (init : List T) (hk : o.idx < init.length)
    (hpost : ∀ p ∈ post, p.idx ≠ o.idx) :
    ((pre ++ o :: post).foldl (fun d o => d.set o.idx o.value) init)[o.idx]? =
      some o.value := by
  rw [List.foldl_append, List.foldl_cons, collect_getElem?_ne post _ _ hpost,
    List.getElem?_set_self (by rw [collect_length]; exact hk)]

/-- Congruence for `flatMap` under pointwise equality on members. -/
theorem flatMap_congr_left {α β : Type} (l : List α) (f g : α → List β)
    (h : ∀ x ∈ l, f x = g x) : l.flatMap f = l.flatMap g := by
  induction l with
  | nil => rfl
  | cons x xs ih =>
      rw [List.flatMap_cons, List.flatMap_cons, h x (List.mem_cons_self _ _),
        ih (fun y hy => h y (List.mem_cons_of_mem _ hy))]

/-- The doubly nested dispatch loop enumerates the flattened index range. -/
theorem flatMap_range_mul {α : Type} (g : Nat → α) (m : Nat) :
    ∀ n : Nat,
      (List.range n).flatMap (fun i =>
        (List.range m).map (fun j => g (i * m + j))) =
      (List.range (n * m)).map g := by
  intro n
  induction n with
  | zero => simp
  | succ n ih =>
      rw [List.range_succ, List.flatMap_append, ih, Nat.succ_mul,
        List.range_add, List.map_append, List.map_map]
      simp [Function.comp]

/-- The task list, indexed by flattened cell index. -/
theorem buildTasks_eq {T : Type} (a b : Matrix T) :
    buildTasks a b = (List.range (a.row * b.col)).map
      (fun k => ⟨k, rowVector a (k / b.col), colVector b (k % b.col)⟩) := by
  unfold buildTasks
  rw [← flatMap_range_mul
    (fun k => (⟨k, rowVector a (k / b.col), colVector b (k % b.col)⟩ :
      MsgInput T)) b.col a.row]
  apply flatMap_congr_left
  intro i _
  apply List.map_congr_left
  intro j hj
  have hj' : j < b.col := List.mem_range.mp hj
  have hdiv : (i * b.col + j) / b.col = i := by
    rw [Nat.mul_comm, Nat.mul_add_div (by omega), Nat.div_eq_of_lt hj']
    omega
  have hmod : (i * b.col + j) % b.col = j := by
    rw [Nat.mul_comm, Nat.mul_add_mod, Nat.mod_eq_of_lt hj']
  rw [hdiv, hmod]

/-- Lemma: `mapM` over `Except` succeeds pointwise when every element does. -/
theorem mapM_ok {α β ε : Type} (F : α → Except ε β) (G : α → β) :
    ∀ ts : List α, (∀ t ∈ ts, F t = .ok (G t)) →
      ts.mapM F = .ok (ts.map G) := by
  intro ts
  induction ts with
  | nil => intro _; rfl
  | cons t ts ih =>
      intro h
      rw [List.mapM_cons, h t (List.mem_cons_self _ _),
        ih (fun x hx => h x (List.mem_cons_of_mem _ hx))]
      rfl

/-- Lemma: `range L` split at an interior position. -/
theorem range_split (L p : Nat) (hp : p < L) :
    List.range L =
      List.range' 0 p ++ p :: List.range' (p + 1) (L - p - 1) := by
  rw [List.range_eq_range']
  have h : List.range' 0 p ++ List.range' (0 + 1 * p) (L - p) 1 =
      List.range' 0 ((L - p) + p) := List.range'_append 0 p (L - p) 1
  simp only [Nat.zero_add, Nat.one_mul] at h
  have hL : (L - p) + p = L := by omega
  rw [hL] at h
  rw [← h]
  congr 1
  have h2 : L - p = (L - p - 1) + 1 := by omega
  conv_lhs => rw [h2, List.range'_succ]

/-- Collecting one output per flattened index into the preallocated zero
buffer yields exactly the indexed values. -/
theorem collect_map_range {T : Type} [Zero T] (v : Nat → T) (L : Nat) :
    ((List.range L).map (fun k => MsgOutput.mk k (v k))).foldl
      (fun d o => d.set o.idx o.value) (List.replicate L (0 : T)) =
      (List.range L).map v := by
  apply List.ext_getElem?
  intro p
  by_cases hp : p < L
  · rw [List.getElem?_map, List.getElem?_range hp]
    rw [range_split L p hp, List.map_append, List.map_cons]
    exact collect_getElem?_split
      ((List.range' 0 p).map (fun k => MsgOutput.mk k (v k)))
      ((List.range' (p + 1) (L - p - 1)).map (fun k => MsgOutput.mk k (v k)))
      (MsgOutput.mk p (v p))
      (List.replicate L (0 : T))
      (by simp only [List.length_replicate]; exact hp)
      (by
        intro q hq
        obtain ⟨x, hx, rfl⟩ := List.mem_map.mp hq
        have hx' := List.mem_range'_1.mp hx
        simp only []
        omega)
  · have h1 : (((List.range L).map (fun k => MsgOutput.mk k (v k))).foldl
        (fun d o => d.set o.idx o.value) (List.replicate L (0 : T)))[p]? =
        none := by
      apply List.getElem?_eq_none
      rw [collect_length, List.length_replicate]
      omega
    have h2 : ((List.range L).map v)[p]? = none := by
      apply List.getElem?_eq_none
      rw [List.length_map, List.length_range]
      omega
    rw [h1, h2]

/-- Under the dimension check and well-formed buffers, each task's dot
product succeeds with the reference entry for its cell. -/
theorem task_dot {T : Type} [AddCommMonoid T] [Mul T] (a b : Matrix T)
    (i j : Nat) (ha : wellFormed a) (hb : wellFormed b)
    (hab : a.col = b.row) (hi : i < a.row) (hj : j < b.col) :
    dot_product (rowVector a i) (colVector b j) = .ok (entrySum a b i j) := by
  have hrl := rowVector_length a i ha hi
  have hcl := colVector_length b j hb hj
  rw [dot_product_ok _ _ (by rw [hrl, hcl, hab])]
  congr 1
  rw [hrl]
  unfold entrySum
  apply Finset.sum_congr rfl
  intro l hl
  have hl' : l < a.col := Finset.mem_range.mp hl
  have h1 : (rowVector a i).data.getD l 0 = a.data.getD (i * a.col + l) 0 := by
    rw [List.getD_eq_getElem?_getD, List.getD_eq_getElem?_getD,
      rowVector_getElem? a i l hl']
  have h2 : (colVector b j).data.getD l 0 = b.data.getD (l * b.col + j) 0 := by
    rw [List.getD_eq_getElem?_getD, List.getD_eq_getElem?_getD,
      colVector_getElem? b j l hj]
  rw [h1, h2]

/-- The full run of `multiply` on compatible well-formed matrices: every
worker dot product succeeds and the collected result is the reference
product. -/
theorem multiplyTraced_ok {T : Type} [AddCommMonoid T] [Mul T]
    (a b : Matrix T) (ha : wellFormed a) (hb : wellFormed b)
    (hab : a.col = b.row) :
    multiplyTraced a b =
      ⟨.ok (referenceMultiply a b), NUM_THREADS, buildTasks a b⟩ := by
  have hmapM : (buildTasks a b).mapM
      (fun t => (dot_product t.row t.col).map
        (fun v => MsgOutput.mk t.idx v)) =
      .ok ((List.range (a.row * b.col)).map
        (fun k => MsgOutput.mk k (entrySum a b (k / b.col) (k % b.col)))) := by
    rw [buildTasks_eq]
    rw [show ((List.range (a.row * b.col)).map
        (fun k => MsgOutput.mk k (entrySum a b (k / b.col) (k % b.col)))) =
      ((List.range (a.row * b.col)).map
        (fun k => (⟨k, rowVector a (k / b.col), colVector b (k % b.col)⟩ :
          MsgInput T))).map
        (fun t => MsgOutput.mk t.idx
          (entrySum a b (t.idx / b.col) (t.idx % b.col))) from by
      rw [List.map_map]; rfl]
    apply mapM_ok
    intro t ht
    obtain ⟨k, hk, rfl⟩ := List.mem_map.mp ht
    have hk' : k < a.row * b.col := List.mem_range.mp hk
    have hm : 0 < b.col := by
      rcases Nat.eq_zero_or_pos b.col with h0 | h0
      · rw [h0, Nat.mul_zero] at hk'; omega
      · exact h0
    have hi : k / b.col < a.row :=
      Nat.div_lt_of_lt_mul (by rw [Nat.mul_comm]; exact hk')
    have hj : k % b.col < b.col := Nat.mod_lt _ hm
    show (dot_product (rowVector a (k / b.col))
        (colVector b (k % b.col))).map _ = _
    rw [task_dot a b _ _ ha hb hab hi hj]
    rfl
  unfold multiplyTraced
  rw [if_neg (by omega)]
  simp only [hmapM]
  unfold referenceMultiply
  rw [collect_map_range (fun k => entrySum a b (k / b.col) (k % b.col))
    (a.row * b.col)]

/-- Lemma: `multiply` on compatible well-formed matrices returns the reference
product. -/
theorem multiply_ok {T : Type} [AddCommMonoid T] [Mul T]
    (a b : Matrix T) (ha : wellFormed a) (hb : wellFormed b)
    (hab : a.col = b.row) :
    multiply a b = .ok (referenceMultiply a b) := by
  unfold multiply
  rw [multiplyTraced_ok a b ha hb hab]

/-- Entry (i,j) of the reference product sits at flattened offset
`i*b.col + j` of its row-major buffer. -/
theorem referenceMultiply_entry {T : Type} [AddCommMonoid T] [Mul T]
    (a b : Matrix T) (i j : Nat) (hi : i < a.row) (hj : j < b.col) :
    (referenceMultiply a b).data.getD (i * b.col + j) 0 =
      entrySum a b i j := by
  have hk : i * b.col + j < a.row * b.col := by
    have h1 : (i + 1) * b.col ≤ a.row * b.col :=
      Nat.mul_le_mul_right _ (by omega)
    have h2 : (i + 1) * b.col = i * b.col + b.col := by ring
    omega
  have hdiv : (i * b.col + j) / b.col = i := by
    rw [Nat.mul_comm i b.col, Nat.mul_add_div (by omega),
      Nat.div_eq_of_lt hj]
    omega
  have hmod : (i * b.col + j) % b.col = j := by
    rw [Nat.mul_comm i b.col, Nat.mul_add_mod, Nat.mod_eq_of_lt hj]
  unfold referenceMultiply
  rw [List.getD_eq_getElem?_getD]
  simp only [List.getElem?_map, List.getElem?_range hk, Option.map_some',
    Option.getD_some, hdiv, hmod]

/-! ### Claims -/

/-- C1: for all well-formed compatible matrices A (m×k) and B (k×n),
`multiply(A,B)` returns `Ok` of an m×n matrix that agrees with the naive
sequential reference multiplication, whose entry at (i,j) is
`Σ_l A[i][l] * B[l][j]`. -/
theorem multiply_matches_reference {T : Type} [AddCommMonoid T] [Mul T]
    (a b : Matrix T) (ha : wellFormed a) (hb : wellFormed b)
    (hab : a.col = b.row) :
    multiply a b = .ok (referenceMultiply a b) ∧
    (referenceMultiply a b).row = a.row ∧
    (referenceMultiply a b).col = b.col ∧
    (referenceMultiply a b).data.length = a.row * b.col ∧
    ∀ i j, i < a.row → j < b.col →
      (referenceMultiply a b).data.getD (i * b.col + j) 0 =
        ∑ l ∈ Finset.range a.col,
          a.data.getD (i * a.col + l) 0 * b.data.getD (l * b.col + j) 0 := by
  refine ⟨multiply_ok a b ha hb hab, rfl, rfl, by simp [referenceMultiply], ?_⟩
  intro i j hi hj
  rw [referenceMultiply_entry a b i j hi hj]
  rfl

/-- C1 witness: A = B = [[1,2],[3,4]] over ℤ; the product is [[7,10],[15,22]]. -/
theorem multiply_matches_reference_witness :
    multiply (Matrix.new [(1:Int),2,3,4] 2 2) (Matrix.new [(1:Int),2,3,4] 2 2) =
      .ok (referenceMultiply (Matrix.new [(1:Int),2,3,4] 2 2)
        (Matrix.new [(1:Int),2,3,4] 2 2)) ∧
    referenceMultiply (Matrix.new [(1:Int),2,3,4] 2 2)
        (Matrix.new [(1:Int),2,3,4] 2 2) = Matrix.new [(7:Int),10,15,22] 2 2 :=
  ⟨(multiply_matches_reference (Matrix.new [(1:Int),2,3,4] 2 2)
      (Matrix.new [(1:Int),2,3,4] 2 2) (by decide) (by decide) rfl).1,
   by decide⟩

/-- C2: when `a.col ≠ b.row`, `multiply` fails immediately with the
dimension-mismatch error, spawning no worker thread and building no task. -/
theorem multiply_dimension_mismatch {T : Type} [Zero T] [Add T] [Mul T]
    (a b : Matrix T) (h : a.col ≠ b.row) :
    multiplyTraced a b = ⟨.error .DimensionMismatch, 0, []⟩ ∧
    multiply a b = .error .DimensionMismatch := by
  have h1 : multiplyTraced a b = ⟨.error .DimensionMismatch, 0, []⟩ := by
    unfold multiplyTraced
    rw [if_pos h]
  exact ⟨h1, by unfold multiply; rw [h1]⟩

/-- C2 witness: A is 2×3, B is 2×2. -/
theorem multiply_dimension_mismatch_witness :
    multiplyTraced (Matrix.new [(1:Int),2,3,4,5,6] 2 3)
        (Matrix.new [(1:Int),2,3,4] 2 2) =
      ⟨.error .DimensionMismatch, 0, []⟩ ∧
    multiply (Matrix.new [(1:Int),2,3,4,5,6] 2 3)
        (Matrix.new [(1:Int),2,3,4] 2 2) = .error .DimensionMismatch :=
  multiply_dimension_mismatch _ _ (by decide)

/-- C5: once the dimension check has passed, every task built by `multiply`
pairs a row vector and a column vector of equal length, so the
length-mismatch branch of `dot_product` is unreachable. -/
theorem dot_product_unreachable_in_multiply {T : Type} [Zero T] [Add T]
    [Mul T] (a b : Matrix T) (ha : wellFormed a) (hb : wellFormed b)
    (hab : a.col = b.row) :
    ∀ t ∈ buildTasks a b, t.row.data.length = t.col.data.length ∧
      ∃ v, dot_product t.row t.col = .ok v := by
  intro t ht
  unfold buildTasks at ht
  rw [List.mem_flatMap] at ht
  obtain ⟨i, hi, ht⟩ := ht
  rw [List.mem_map] at ht
  obtain ⟨j, hj, rfl⟩ := ht
  have hi' : i < a.row := List.mem_range.mp hi
  have hj' : j < b.col := List.mem_range.mp hj
  show (rowVector a i).data.length = (colVector b j).data.length ∧
    ∃ v, dot_product (rowVector a i) (colVector b j) = .ok v
  have hlen : (rowVector a i).data.length = (colVector b j).data.length := by
    rw [rowVector_length a i ha hi', colVector_length b j hb hj', hab]
  refine ⟨hlen, ?_⟩
  unfold dot_product
  rw [if_neg (by omega)]
  exact ⟨_, rfl⟩


/-- The identity matrix reads `1` on the diagonal and `0` elsewhere. -/
theorem identityMatrix_getD {T : Type} [Zero T] [One T] (n l j : Nat)
    (hl : l < n) (hj : j < n) :
    (identityMatrix T n).data.getD (l * n + j) 0 =
      if l = j then (1 : T) else 0 := by
  have hk : l * n + j < n * n := by
    have h1 : (l + 1) * n ≤ n * n := Nat.mul_le_mul_right _ (by omega)
    have h2 : (l + 1) * n = l * n + n := by ring
    omega
  have hdiv : (l * n + j) / n = l := by
    rw [Nat.mul_comm l n, Nat.mul_add_div (by omega), Nat.div_eq_of_lt hj]
    omega
  have hmod : (l * n + j) % n = j := by
    rw [Nat.mul_comm l n, Nat.mul_add_mod, Nat.mod_eq_of_lt hj]
  unfold identityMatrix
  rw [List.getD_eq_getElem?_getD]
  simp only [List.getElem?_map, List.getElem?_range hk, Option.map_some',
    Option.getD_some, hdiv, hmod]

/-- C7: multiplying any well-formed square matrix by the identity matrix of
its size returns `Ok` of the matrix itself. -/
theorem multiply_identity_law {T : Type} [NonAssocSemiring T]
    (n : Nat) (a : Matrix T) (hrow : a.row = n) (hcol : a.col = n)
    (ha : wellFormed a) :
    multiply a (identityMatrix T n) = .ok a := by
  have hI : wellFormed (identityMatrix T n) := by
    simp [identityMatrix, wellFormed]
  have hab : a.col = (identityMatrix T n).row := by
    rw [hcol]; rfl
  rw [multiply_ok a (identityMatrix T n) ha hI hab]
  have hdata : (referenceMultiply a (identityMatrix T n)).data = a.data := by
    apply List.ext_getElem?
    intro p
    unfold wellFormed at ha
    have hlenA : a.data.length = a.row * n := by rw [ha, hcol]
    by_cases hp : p < a.row * n
    · have hn : 0 < n := by
        rcases Nat.eq_zero_or_pos n with h0 | h0
        · rw [h0, Nat.mul_zero] at hp; omega
        · exact h0
      have hi : p / n < a.row :=
        Nat.div_lt_of_lt_mul (by rw [Nat.mul_comm]; exact hp)
      have hj : p % n < n := Nat.mod_lt _ hn
      have hsum : entrySum a (identityMatrix T n) (p / n) (p % n) =
          a.data.getD ((p / n) * a.col + p % n) 0 := by
        unfold entrySum
        have hIc : (identityMatrix T n).col = n := rfl
        rw [hIc]
        have hterm : ∀ l ∈ Finset.range a.col,
            a.data.getD ((p / n) * a.col + l) 0 *
              (identityMatrix T n).data.getD (l * n + p % n) 0 =
            if l = p % n then a.data.getD ((p / n) * a.col + l) 0 else 0 := by
          intro l hlmem
          have hl' : l < n := by
            have := Finset.mem_range.mp hlmem
            omega
          rw [identityMatrix_getD n l (p % n) hl' hj]
          by_cases hcase : l = p % n
          · rw [if_pos hcase, if_pos hcase, mul_one]
          · rw [if_neg hcase, if_neg hcase, mul_zero]
        rw [Finset.sum_congr rfl hterm, Finset.sum_ite_eq' (Finset.range a.col)
          (p % n) (fun l => a.data.getD ((p / n) * a.col + l) 0),
          if_pos (Finset.mem_range.mpr (by omega))]
      have hoff : (p / n) * a.col + p % n = p := by
        rw [hcol, Nat.mul_comm, Nat.div_add_mod]
      have hgetp : (referenceMultiply a (identityMatrix T n)).data[p]? =
          some (a.data.getD p 0) := by
        have hIrow : (identityMatrix T n).col = n := rfl
        unfold referenceMultiply
        simp only [hIrow, List.getElem?_map, List.getElem?_range hp,
          Option.map_some']
        rw [hsum, hoff]
      rw [hgetp, List.getD_eq_getElem?_getD,
        List.getElem?_eq_getElem (by omega : p < a.data.length)]
      rfl
    · have h1 : (referenceMultiply a (identityMatrix T n)).data[p]? = none := by
        apply List.getElem?_eq_none
        simp only [referenceMultiply, List.length_map, List.length_range]
        have hIc : (identityMatrix T n).col = n := rfl
        rw [hIc]
        omega
      have h2 : a.data[p]? = none := by
        apply List.getElem?_eq_none
        omega
      rw [h1, h2]
  have hrow' : (referenceMultiply a (identityMatrix T n)).row = a.row := rfl
  have hcol' : (referenceMultiply a (identityMatrix T n)).col = a.col := by
    have : (referenceMultiply a (identityMatrix T n)).col = n := rfl
    rw [this, hcol]
  congr 1
  rw [show referenceMultiply a (identityMatrix T n) =
      Matrix.mk (referenceMultiply a (identityMatrix T n)).data
        (referenceMultiply a (identityMatrix T n)).row
        (referenceMultiply a (identityMatrix T n)).col from rfl,
    hdata, hrow', hcol']

/-- The element loop of `Display.fmt` over an index interval reaching the
last index `c - 1` appends the separator-joined rendered items. -/
theorem loop_join (g : Nat → String) (sep : String) (c : Nat) :
    ∀ (k s : Nat) (acc : String), s + k = c → 1 ≤ k →
      (List.range' s k).foldl
        (fun acc j => if j ≠ c - 1 then (acc ++ g j) ++ sep else acc ++ g j)
        acc =
      acc ++ joinSep sep ((List.range' s k).map g) := by
  intro k
  induction k with
  | zero => intro s acc _ h1; omega
  | succ k ih =>
      intro s acc hsum _
      rcases Nat.eq_zero_or_pos k with hk | hk
      · subst hk
        rw [List.range'_one, List.foldl_cons, List.foldl_nil, List.map_cons,
          List.map_nil, if_neg (by omega : ¬ s ≠ c - 1)]
        simp [joinSep]
      · obtain ⟨q, rfl⟩ : ∃ q, k = q + 1 := ⟨k - 1, by omega⟩
        rw [List.range'_succ, List.foldl_cons,
          if_pos (by omega : s ≠ c - 1),
          ih (s + 1) ((acc ++ g s) ++ sep) (by omega) (by omega),
          List.map_cons]
        conv_rhs => rw [List.range'_succ, List.map_cons]
        rw [joinSep]
        conv_lhs => rw [List.range'_succ, List.map_cons]
        simp [String.append_assoc]

/-- The element loop of `Display.fmt` over the full index range appends the
separator-joined rendered items (empty when the range is empty). -/
theorem loop_join_range (g : Nat → String) (sep : String) (c : Nat)
    (acc : String) :
    (List.range c).foldl
      (fun acc j => if j ≠ c - 1 then (acc ++ g j) ++ sep else acc ++ g j)
      acc =
    acc ++ joinSep sep ((List.range c).map g) := by
  rcases Nat.eq_zero_or_pos c with hc | hc
  · subst hc
    simp [joinSep, String.append_empty]
  · rw [List.range_eq_range']
    exact loop_join g sep c c 0 acc (by omega) (by omega)

/-- The two nested loops of `Display.fmt` produce the rows joined by `", "`,
each row its elements joined by `" "`. -/
theorem display_loops (e : Nat → Nat → String) (r c : Nat) :
    (List.range r).foldl (fun acc i =>
      (fun a => if i ≠ r - 1 then a ++ ", " else a)
        ((List.range c).foldl (fun a j =>
          (fun a2 => if j ≠ c - 1 then a2 ++ " " else a2) (a ++ e i j))
          acc)) ""
    = joinSep ", " ((List.range r).map (fun i =>
        joinSep " " ((List.range c).map (e i)))) := by
  have hstep : (List.range r).foldl (fun acc i =>
      (fun a => if i ≠ r - 1 then a ++ ", " else a)
        ((List.range c).foldl (fun a j =>
          (fun a2 => if j ≠ c - 1 then a2 ++ " " else a2) (a ++ e i j))
          acc)) "" =
      (List.range r).foldl (fun acc i =>
        if i ≠ r - 1 then
          (acc ++ joinSep " " ((List.range c).map (e i))) ++ ", "
        else acc ++ joinSep " " ((List.range c).map (e i))) "" := by
    apply List.foldl_ext
    intro acc i _
    show (fun a => if i ≠ r - 1 then a ++ ", " else a)
        ((List.range c).foldl (fun a j =>
          (fun a2 => if j ≠ c - 1 then a2 ++ " " else a2) (a ++ e i j))
          acc) = _
    have hinner : (List.range c).foldl (fun a j =>
        (fun a2 => if j ≠ c - 1 then a2 ++ " " else a2) (a ++ e i j)) acc =
        acc ++ joinSep " " ((List.range c).map (e i)) :=
      loop_join_range (e i) " " c acc
    rw [hinner]
  rw [hstep,
    loop_join_range (fun i => joinSep " " ((List.range c).map (e i))) ", " r "",
    String.empty_append]

/-- C6: `Display for Matrix` renders exactly the contract of the spec —
`\x7b`, rows separated by `", "`, elements within a row separated by a
single space, no trailing delimiters, `\x7d` — and on [[7,10],[15,22]] it
renders `"\x7b7 10, 15 22\x7d"`. -/
theorem fmt_matches_contract {T : Type} [Inhabited T] (f : T → String)
    (m : Matrix T) :
    Matrix.fmt f m = specRender f m ∧
    Matrix.fmt toString (Matrix.new [(7:Int),10,15,22] 2 2) =
      "\x7b7 10, 15 22\x7d" :=
  ⟨congrArg (fun s => "\x7b" ++ s ++ "\x7d")
    (display_loops
      (fun i j => f (m.data.getD (i * m.col + j) default)) m.row m.col),
   by decide⟩

/-- C10: a matrix with zero rows renders as exactly `"\x7b\x7d"`, whatever
its column count and buffer. -/
theorem fmt_zero_rows {T : Type} [Inhabited T] (f : T → String)
    (m : Matrix T) (h : m.row = 0) : Matrix.fmt f m = "\x7b\x7d" := by
  unfold Matrix.fmt
  rw [h]
  rfl

/-- C10 witness: 0 rows, 3 declared columns, non-empty buffer. -/
theorem fmt_zero_rows_witness :
    Matrix.fmt toString (Matrix.new [(5:Int),6] 0 3) = "\x7b\x7d" :=
  fmt_zero_rows toString (Matrix.new [(5:Int),6] 0 3) rfl

/-- C7 witness: n = 2, A = [[1,2],[3,4]] over the integers. -/
theorem multiply_identity_law_witness :
    multiply (Matrix.new [(1:Int),2,3,4] 2 2) (identityMatrix Int 2) =
      .ok (Matrix.new [(1:Int),2,3,4] 2 2) :=
  multiply_identity_law 2 (Matrix.new [(1:Int),2,3,4] 2 2) rfl rfl (by decide)

/-- C5 witness: A = B = [[1,2],[3,4]] over the integers; every task of the
call pairs equal-length vectors and its dot product succeeds. -/
theorem dot_product_unreachable_in_multiply_witness :
    (wellFormed (Matrix.new [(1:Int),2,3,4] 2 2) ∧
     wellFormed (Matrix.new [(1:Int),2,3,4] 2 2) ∧
     (Matrix.new [(1:Int),2,3,4] 2 2).col =
       (Matrix.new [(1:Int),2,3,4] 2 2).row) ∧
    ∀ t ∈ buildTasks (Matrix.new [(1:Int),2,3,4] 2 2)
        (Matrix.new [(1:Int),2,3,4] 2 2),
      t.row.data.length = t.col.data.length ∧
      ∃ v, dot_product t.row t.col = .ok v :=
  ⟨⟨by decide, by decide, rfl⟩,
   dot_product_unreachable_in_multiply (Matrix.new [(1:Int),2,3,4] 2 2)
     (Matrix.new [(1:Int),2,3,4] 2 2) (by decide) (by decide) rfl⟩

/-- C4: `dot_product` fails exactly when the lengths differ, and otherwise
returns the sum of elementwise products accumulated from the additive
identity. -/
theorem dot_product_spec {T : Type} [AddCommMonoid T] [Mul T]
    (a b : Vector T) :
    (a.data.length ≠ b.data.length →
      dot_product a b = .error .VectorLengthMismatch) ∧
    (a.data.length = b.data.length →
      dot_product a b = .ok (∑ i ∈ Finset.range a.data.length,
        a.data.getD i 0 * b.data.getD i 0)) := by
  constructor
  · intro h
    unfold dot_product
    rw [if_pos h]
  · intro h
    exact dot_product_ok a b h

/-- C4 witness: [1,2]·[3] fails, [1,2]·[3,4] = 11. -/
theorem dot_product_spec_witness :
    ((Vector.new [(1:Int),2]).data.length ≠
      (Vector.new [(3:Int)]).data.length ∧
     dot_product (Vector.new [(1:Int),2]) (Vector.new [(3:Int)]) =
       .error .VectorLengthMismatch) ∧
    ((Vector.new [(1:Int),2]).data.length =
      (Vector.new [(3:Int),4]).data.length ∧
     dot_product (Vector.new [(1:Int),2]) (Vector.new [(3:Int),4]) =
       .ok 11) := by
  refine ⟨⟨by decide, (dot_product_spec _ _).1 (by decide)⟩,
    ⟨by decide, ?_⟩⟩
  rw [(dot_product_spec (Vector.new [(1:Int),2])
    (Vector.new [(3:Int),4])).2 (by decide)]
  exact congrArg Except.ok (by decide)

/-- C3 counterexample: the buffer [1] with declared dimensions 2×2 violates
the length requirement; the spec-modelled constructor rejects it with
`ConstructionError`, yet the code's `Matrix::new` succeeds and returns the
mis-sized matrix — it has no failure path at all. -/
theorem matrix_new_unchecked_cex :
    (Matrix.new [(1:Int)] 2 2).data.length ≠ 2 * 2 ∧
    Matrix.new [(1:Int)] 2 2 = ⟨[(1:Int)], 2, 2⟩ ∧
    newMatrixSpec [(1:Int)] 2 2 = .error .BufferLengthMismatch := by
  refine ⟨by decide, rfl, rfl⟩

/-- C3 amended: `Matrix::new` performs no buffer-length validation: on every
input, also when the buffer length differs from rows*cols, it succeeds and
stores exactly the given buffer and dimensions, leaving the matrix
ill-formed where the spec-modelled `newMatrix` would fail with
`ConstructionError`. -/
theorem matrix_new_unchecked {T : Type} (data : List T) (row col : Nat)
    (h : data.length ≠ row * col) :
    Matrix.new data row col = ⟨data, row, col⟩ ∧
    ¬ wellFormed (Matrix.new data row col) ∧
    newMatrixSpec data row col = .error .BufferLengthMismatch := by
  refine ⟨rfl, ?_, ?_⟩
  · unfold wellFormed Matrix.new
    exact h
  · unfold newMatrixSpec
    rw [if_pos h]

/-- C3 witness at the buffer [1,2,3] declared 2×2. -/
theorem matrix_new_unchecked_witness :
    ([(1:Int),2,3].length ≠ 2 * 2) ∧
    (Matrix.new [(1:Int),2,3] 2 2 = ⟨[(1:Int),2,3], 2, 2⟩ ∧
     ¬ wellFormed (Matrix.new [(1:Int),2,3] 2 2) ∧
     newMatrixSpec [(1:Int),2,3] 2 2 = .error .BufferLengthMismatch) :=
  ⟨by decide, matrix_new_unchecked [(1:Int),2,3] 2 2 (by decide)⟩

/-- Lemma: updating the entries bound to one key leaves every other key's
binding unchanged. -/
theorem lookup_map_update_ne (f : Int → Int) (key other : String)
    (h : other ≠ key) :
    ∀ l : List (String × Int),
      (l.map (fun p => if p.1 = key then (p.1, f p.2) else p)).lookup
        other = l.lookup other := by
  intro l
  induction l with
  | nil => rfl
  | cons p l ih =>
      obtain ⟨k, b⟩ := p
      by_cases hk : k = key
      · subst hk
        have hbeq : (other == k) = false := by simp [h]
        simp [List.lookup_cons, hbeq, ih]
      · simp only [List.map_cons, if_neg hk, List.lookup_cons]
        cases hbeq : other == k with
        | true => rfl
        | false => simp only [ih]

/-- Lemma: updating the entries bound to a key rebinds the key to the updated
value. -/
theorem lookup_map_update_self (f : Int → Int) (key : String) :
    ∀ (l : List (String × Int)) (v : Int), l.lookup key = some v →
      (l.map (fun p => if p.1 = key then (p.1, f p.2) else p)).lookup
        key = some (f v) := by
  intro l
  induction l with
  | nil => intro v h; simp [List.lookup] at h
  | cons p l ih =>
      obtain ⟨k, b⟩ := p
      intro v h
      rw [List.lookup_cons] at h
      by_cases hk : key = k
      · have hbeq : (key == k) = true := by simp [hk]
        rw [hbeq] at h
        simp only at h
        cases h
        simp only [List.map_cons, if_pos hk.symm, List.lookup_cons]
        rw [hbeq]
      · have hbeq : (key == k) = false := by simp [hk]
        rw [hbeq] at h
        simp only at h
        simp only [List.map_cons, List.lookup_cons]
        by_cases hk2 : k = key
        · exact absurd hk2.symm hk
        · rw [if_neg hk2]
          simp only [List.lookup_cons]
          rw [hbeq]
          simp only [ih v h]

/-- Lemma: the zero-initialised map binds exactly the listed names, to 0. -/
theorem lookup_map_zero (key : String) :
    ∀ ns : List String,
      (key ∈ ns →
        (ns.map (fun n => (n, (0:Int)))).lookup key = some 0) ∧
      (key ∉ ns → (ns.map (fun n => (n, (0:Int)))).lookup key = none) := by
  intro ns
  induction ns with
  | nil => exact ⟨fun h => absurd h (List.not_mem_nil key), fun _ => rfl⟩
  | cons n ns ih =>
      constructor
      · intro hmem
        simp only [List.map_cons, List.lookup_cons]
        by_cases hk : key = n
        · have hbeq : (key == n) = true := by simp [hk]
          rw [hbeq]
        · have hbeq : (key == n) = false := by simp [hk]
          rw [hbeq]
          simp only []
          exact ih.1 (by
            rcases List.mem_cons.mp hmem with h | h
            · exact absurd h hk
            · exact h)
      · intro hmem
        simp only [List.map_cons, List.lookup_cons]
        have hk : key ≠ n := fun h => hmem (by rw [h]; exact List.mem_cons_self _ _)
        have hbeq : (key == n) = false := by simp [hk]
        rw [hbeq]
        simp only []
        exact ih.2 (fun h => hmem (List.mem_cons_of_mem _ h))

/-- Lemma: `inc` on a bound key returns Ok, rebinds the key to the wrapped
`i64` increment of its value, and leaves every other key unchanged. -/
theorem inc_of_lookup_some (m : AmapMetrics) (key : String) (v : Int)
    (h : m.data.lookup key = some v) :
    (m.inc key).1 = .ok () ∧
    (m.inc key).2.data.lookup key = some (i64wrap (v + 1)) ∧
    ∀ other, other ≠ key →
      (m.inc key).2.data.lookup other = m.data.lookup other := by
  unfold AmapMetrics.inc
  rw [h]
  exact ⟨rfl,
    lookup_map_update_self (fun z => i64wrap (z + 1)) key m.data v h,
    fun other hother =>
      lookup_map_update_ne (fun z => i64wrap (z + 1)) key other hother m.data⟩

/-- Lemma: `inc` on an unbound key fails and returns the state unchanged. -/
theorem inc_of_lookup_none (m : AmapMetrics) (key : String)
    (h : m.data.lookup key = none) :
    m.inc key = (.error .KeyNotFound, m) := by
  unfold AmapMetrics.inc
  rw [h]

/-- Lemma: wrapping commutes with incrementing an already wrapped value. -/
theorem i64wrap_add_one (z : Int) :
    i64wrap (i64wrap z + 1) = i64wrap (z + 1) := by
  unfold i64wrap
  omega

/-- Lemma: inside the `i64` range the wrap is the identity. -/
theorem i64wrap_eq_self (z : Int) (h1 : -9223372036854775808 ≤ z)
    (h2 : z < 9223372036854775808) : i64wrap z = z := by
  unfold i64wrap
  omega

/-- Lemma: after n increments of its single registered key, starting from
construction, the counter holds the `i64` wrap of n — so every `i64` value,
`i64::MAX` included, is a counter state the program reaches. -/
theorem incN_lookup (key : String) :
    ∀ k : Nat, (incN (AmapMetrics.new [key]) key k).data.lookup key =
      some (i64wrap k) := by
  intro k
  induction k with
  | zero =>
      show (AmapMetrics.new [key]).data.lookup key = some (i64wrap 0)
      rw [i64wrap_eq_self 0 (by omega) (by omega)]
      exact (lookup_map_zero key [key].dedup).1
        (List.mem_dedup.mpr (List.mem_cons_self _ _))
  | succ k ih =>
      show ((incN (AmapMetrics.new [key]) key k).inc key).2.data.lookup key = _
      rw [(inc_of_lookup_some _ key _ ih).2.1, i64wrap_add_one]
      norm_num

/-- C9 counterexample: starting from `newMetrics(["requests"])`, after
`i64::MAX = 9223372036854775807` increments the counter holds `i64::MAX`;
the next `increment` of the registered name still returns Ok, but
`fetch_add(1)` wraps the counter to `i64::MIN = -9223372036854775808`
instead of increasing it by exactly 1. -/
theorem amap_inc_overflow_cex :
    (incN (AmapMetrics.new ["requests"]) "requests"
        9223372036854775807).data.lookup "requests" =
      some 9223372036854775807 ∧
    ((incN (AmapMetrics.new ["requests"]) "requests"
        9223372036854775807).inc "requests").1 = .ok () ∧
    ((incN (AmapMetrics.new ["requests"]) "requests"
        9223372036854775807).inc "requests").2.data.lookup "requests" =
      some (-9223372036854775808) ∧
    (-9223372036854775808 : Int) ≠ 9223372036854775807 + 1 := by
  have h1 := incN_lookup "requests" 9223372036854775807
  have hcast : ((9223372036854775807 : Nat) : Int) = 9223372036854775807 := by
    norm_num
  rw [hcast, i64wrap_eq_self 9223372036854775807 (by omega) (by omega)] at h1
  have h2 := inc_of_lookup_some _ "requests" _ h1
  refine ⟨h1, h2.1, ?_, by decide⟩
  rw [h2.2.1]
  exact congrArg some (by decide)

/-- C9 (amended): `Metrics.increment` fails with `KeyNotFound` exactly on
names not passed at construction, leaving the state unchanged; on a
registered name it returns `Ok`, leaves every other counter unchanged, and
replaces the counter value v by the wrapping `i64` increment
`i64wrap (v + 1)` — equal to `v + 1` exactly while v is below
`i64::MAX` (in particular the counter goes from 0 to 1 right after
construction); at `v = i64::MAX` the counter wraps to `i64::MIN` instead of
increasing. -/
theorem amap_metrics_inc_spec (names : List String) (key : String) :
    (key ∉ names →
      (AmapMetrics.new names).inc key =
        (.error .KeyNotFound, AmapMetrics.new names)) ∧
    (key ∈ names →
      ((AmapMetrics.new names).inc key).1 = .ok () ∧
      ((AmapMetrics.new names).inc key).2.data.lookup key = some 1 ∧
      ∀ other, other ≠ key →
        ((AmapMetrics.new names).inc key).2.data.lookup other =
          (AmapMetrics.new names).data.lookup other) ∧
    (∀ (m : AmapMetrics) (v : Int), m.data.lookup key = some v →
      (m.inc key).1 = .ok () ∧
      (m.inc key).2.data.lookup key = some (i64wrap (v + 1)) ∧
      (-9223372036854775808 ≤ v → v < 9223372036854775807 →
        i64wrap (v + 1) = v + 1) ∧
      ∀ other, other ≠ key →
        (m.inc key).2.data.lookup other = m.data.lookup other) ∧
    (∀ m : AmapMetrics, m.data.lookup key = none →
      m.inc key = (.error .KeyNotFound, m)) := by
  have hnew0 : key ∈ names →
      (AmapMetrics.new names).data.lookup key = some 0 := by
    intro hmem
    exact (lookup_map_zero key names.dedup).1 (List.mem_dedup.mpr hmem)
  have hnewn : key ∉ names →
      (AmapMetrics.new names).data.lookup key = none := by
    intro hmem
    exact (lookup_map_zero key names.dedup).2
      (fun h => hmem (List.mem_dedup.mp h))
  refine ⟨fun hmem => inc_of_lookup_none _ _ (hnewn hmem),
    fun hmem => ?_, fun m v h => ?_,
    fun m h => inc_of_lookup_none _ _ h⟩
  · have h := inc_of_lookup_some _ key 0 (hnew0 hmem)
    refine ⟨h.1, ?_, h.2.2⟩
    rw [h.2.1]
    exact congrArg some (by decide)
  · have h2 := inc_of_lookup_some m key v h
    exact ⟨h2.1, h2.2.1,
      fun hlo hhi => i64wrap_eq_self (v + 1) (by omega) (by omega),
      h2.2.2⟩

/-- C9 witness: names = [requests, errors]; a missing key fails and changes
nothing, a registered key goes from 0 to 1 and does not touch the other. -/
theorem amap_metrics_inc_spec_witness :
    (("missing" ∉ ["requests", "errors"]) ∧
     (AmapMetrics.new ["requests", "errors"]).inc "missing" =
       (.error .KeyNotFound, AmapMetrics.new ["requests", "errors"])) ∧
    (("requests" ∈ ["requests", "errors"]) ∧
     ((AmapMetrics.new ["requests", "errors"]).inc "requests").1 = .ok () ∧
     ((AmapMetrics.new ["requests", "errors"]).inc
        "requests").2.data.lookup "requests" = some 1 ∧
     ((AmapMetrics.new ["requests", "errors"]).inc
        "requests").2.data.lookup "errors" =
       (AmapMetrics.new ["requests", "errors"]).data.lookup "errors") := by
  refine ⟨⟨by decide,
    (amap_metrics_inc_spec ["requests", "errors"] "missing").1 (by decide)⟩,
    ?_⟩
  have h := (amap_metrics_inc_spec ["requests", "errors"] "requests").2.1
    (by decide)
  exact ⟨by decide, h.1, h.2.1, h.2.2 "errors" (by decide)⟩

end Concurrency
